import Mathlib

/-!
Verification development for the dual-agent run-coordination layer.

The definitions below are shallow embeddings of the Python source in
src/agent/dual_agent_system.py, src/agent/math_agent.py and
src/agent/question_agent.py.  Python strings handled byte/char-wise by the
stream decoder are modelled as List Char; strings handled opaquely are
modelled as String.  External library calls (json.loads, the LLM, the HTTP
socket) are modelled as explicit parameters or oracle values, so every
definition is executable.
-/

namespace DualAgents

/-- Model of the Python expression s.startswith(pre): pre is a prefix of s
as a character sequence. -/
def pyStartsWith (s pre : String) : Bool :=
  pre.data.isPrefixOf s.data

/-! ## Stream decoder

Embedding of MathAgent._process_stream_response (math_agent.py lines
207-239); DualAgentSystem._run_on_thread_stream (dual_agent_system.py lines
166-189) contains the identical loop inline.  The body is the finite list
of non-empty chunks returned by response.read before the zero-length read.
The source decodes EACH CHUNK SEPARATELY with chunk.decode, so the
byte-accurate model processStreamBytes below takes chunks of bytes (Nat
values 0-255), runs the UTF-8 decoder utf8Decode on each chunk, and
propagates the UnicodeDecodeError raised when a chunk is not valid UTF-8 on
its own (a chunk boundary inside a multi-byte character).  The loop on the
successfully decoded character content is factored out as
processStreamResponse.  json.loads is an external library call, modelled by
a parameter parse that returns none exactly when loads would raise
json.JSONDecodeError. -/

/-- Model of buffer.split given the newline character, on char lists.
Always returns a non-empty list; the head parts are the complete lines and
the final part is the trailing text after the last newline. -/
def splitNl : List Char → List (List Char)
  | [] => [[]]
  | c :: cs =>
    if c = '\n' then [] :: splitNl cs
    else
      match splitNl cs with
      | [] => [[c]]
      | l :: ls => (c :: l) :: ls

/-- The characters of the literal "data: ", the stream data line marker
(config.STREAM_DATA_PREFIX in config.py). -/
def dataMarker : List Char := ['d', 'a', 't', 'a', ':', ' ']

/-- The characters of the literal "[DONE]", the stream termination sentinel
(config.STREAM_DONE_MARKER in config.py). -/
def doneMarker : List Char := ['[', 'D', 'O', 'N', 'E', ']']

/-- Model of the Python str.strip(): drop whitespace from both ends. -/
def pyStrip (s : List Char) : List Char :=
  ((s.dropWhile Char.isWhitespace).reverse.dropWhile Char.isWhitespace).reverse

/-- Processing of one complete line of the stream body: strip whitespace,
require the data line marker, drop it, and unless the remainder is empty or
the termination sentinel, hand it to the JSON parser; a parse failure (none)
is silently skipped.  Mirrors the loop body of _process_stream_response. -/
def procLine {α : Type} (parse : List Char → Option α) (line : List Char) : Option α :=
  let l := pyStrip line
  if dataMarker.isPrefixOf l then
    let ds := l.drop 6
    if ds = [] ∨ ds = doneMarker then none else parse ds
  else none

/-- The character-level core of the chunk loop of
_process_stream_response, taking the already-decoded character content of
each chunk (processStreamBytes below adds the per-chunk decode step and its
failure path): each iteration appends the next chunk content to the
carry-over buffer, splits on newlines, processes every complete line in
order and keeps the trailing partial line as the new buffer.  When the
chunk list is exhausted (the zero-length read) the remaining buffer is
discarded and the accumulated frames are returned. -/
def processStreamResponse {α : Type} (parse : List Char → Option α) :
    List (List Char) → List Char → List α
  | [], _ => []
  | c :: cs, buf =>
    let lines := splitNl (buf ++ c)
    lines.dropLast.filterMap (procLine parse) ++
      processStreamResponse parse cs (lines.getLastD [])

/-- Frames produced by all complete lines of a flat character stream: split
on newlines, drop the trailing (unterminated) part, process each line. -/
def procFlat {α : Type} (parse : List Char → Option α) (s : List Char) : List α :=
  (splitNl s).dropLast.filterMap (procLine parse)

/-- Whether a byte is a UTF-8 continuation byte (0x80-0xBF). -/
def isCont (b : Nat) : Bool := 128 ≤ b && b ≤ 191

/-- Valid second bytes of a multi-byte UTF-8 sequence given its lead byte:
the lead bytes 0xE0, 0xED, 0xF0 and 0xF4 restrict the range (excluding
overlong encodings, surrogates and code points above 0x10FFFF, exactly as
the strict Python codec does); all other leads accept any continuation. -/
def validB1 (b0 b1 : Nat) : Bool :=
  if b0 = 224 then 160 ≤ b1 && b1 ≤ 191
  else if b0 = 237 then 128 ≤ b1 && b1 ≤ 159
  else if b0 = 240 then 144 ≤ b1 && b1 ≤ 191
  else if b0 = 244 then 128 ≤ b1 && b1 ≤ 143
  else isCont b1

/-- Code point of a two-byte UTF-8 sequence. -/
def cp2 (b0 b1 : Nat) : Nat := (b0 - 192) * 64 + (b1 - 128)

/-- Code point of a three-byte UTF-8 sequence. -/
def cp3 (b0 b1 b2 : Nat) : Nat :=
  (b0 - 224) * 4096 + (b1 - 128) * 64 + (b2 - 128)

/-- Code point of a four-byte UTF-8 sequence. -/
def cp4 (b0 b1 b2 b3 : Nat) : Nat :=
  (b0 - 240) * 262144 + (b1 - 128) * 4096 + (b2 - 128) * 64 + (b3 - 128)

/-- One step of strict UTF-8 decoding: the character encoded by the leading
byte sequence together with the remaining bytes, or none where the head is
an incomplete or malformed sequence, an overlong encoding, a surrogate, or
a code point beyond 0x10FFFF — exactly the inputs on which the strict
Python codec raises. -/
def utf8Step : List Nat → Option (Char × List Nat)
  | [] => none
  | b0 :: rest =>
    if b0 ≤ 127 then some (Char.ofNat b0, rest)
    else if 194 ≤ b0 ∧ b0 ≤ 223 then
      match rest with
      | b1 :: rest2 =>
        if isCont b1 then some (Char.ofNat (cp2 b0 b1), rest2) else none
      | [] => none
    else if 224 ≤ b0 ∧ b0 ≤ 239 then
      match rest with
      | b1 :: b2 :: rest3 =>
        if validB1 b0 b1 && isCont b2 then some (Char.ofNat (cp3 b0 b1 b2), rest3)
        else none
      | _ => none
    else if 240 ≤ b0 ∧ b0 ≤ 244 then
      match rest with
      | b1 :: b2 :: b3 :: rest4 =>
        if validB1 b0 b1 && isCont b2 && isCont b3 then
          some (Char.ofNat (cp4 b0 b1 b2 b3), rest4)
        else none
      | _ => none
    else none

/-- Iterated UTF-8 steps; fuel bounds the number of characters and every
step consumes at least one byte, so the byte count is always enough fuel. -/
def utf8DecodeLoop : Nat → List Nat → Option (List Char)
  | _, [] => some []
  | 0, _ :: _ => none
  | fuel + 1, b0 :: rest =>
    (utf8Step (b0 :: rest)).bind
      (fun cr => (utf8DecodeLoop fuel cr.2).map (fun s => cr.1 :: s))

/-- Model of bytes.decode with the strict UTF-8 codec: some chars on a
valid byte sequence, none where Python raises UnicodeDecodeError. -/
def utf8Decode (bs : List Nat) : Option (List Char) := utf8DecodeLoop bs.length bs

/-- The chunk loop of _process_stream_response at byte granularity: each
iteration decodes the next byte chunk with chunk.decode before appending it
to the carry-over character buffer; a chunk that is not valid UTF-8 on its
own raises UnicodeDecodeError, which is not caught by the
json.JSONDecodeError handler and propagates out of the loop, losing every
frame (error result).  Otherwise the iteration behaves as the
character-level loop. -/
def processStreamBytes {α : Type} (parse : List Char → Option α) :
    List (List Nat) → List Char → Except String (List α)
  | [], _ => .ok []
  | c :: cs, buf =>
    match utf8Decode c with
    | none => .error "UnicodeDecodeError"
    | some s =>
      let lines := splitNl (buf ++ s)
      match processStreamBytes parse cs (lines.getLastD []) with
      | .error e => .error e
      | .ok frames => .ok (lines.dropLast.filterMap (procLine parse) ++ frames)

theorem splitNl_ne_nil (s : List Char) : splitNl s ≠ [] := by
  cases s with
  | nil => simp [splitNl]
  | cons c cs =>
    simp only [splitNl]
    split
    · simp
    · cases h : splitNl cs <;> simp

/-- Prepending text to the head line of a split. -/
def consHead (x : List Char) : List (List Char) → List (List Char)
  | [] => [x]
  | y :: ys => (x ++ y) :: ys

theorem consHead_ne_nil (x : List Char) (ls : List (List Char)) :
    consHead x ls ≠ [] := by
  cases ls <;> simp [consHead]

theorem splitNl_cons_newline (cs : List Char) :
    splitNl ('\n' :: cs) = [] :: splitNl cs := by
  simp [splitNl]

theorem splitNl_cons_other (c : Char) (cs : List Char) (h : c ≠ '\n') :
    splitNl (c :: cs) = consHead [c] (splitNl cs) := by
  simp only [splitNl, if_neg h]
  cases hs : splitNl cs with
  | nil => exact absurd hs (splitNl_ne_nil cs)
  | cons l ls => simp [consHead]

theorem consHead_nil_eq (ls : List (List Char)) (h : ls ≠ []) :
    consHead [] ls = ls := by
  cases ls with
  | nil => exact absurd rfl h
  | cons y ys => simp [consHead]

theorem consHead_consHead (x y : List Char) (ls : List (List Char)) :
    consHead x (consHead y ls) = consHead (x ++ y) ls := by
  cases ls <;> simp [consHead]

theorem splitNl_append (a b : List Char) :
    splitNl (a ++ b) =
      (splitNl a).dropLast ++ consHead ((splitNl a).getLastD []) (splitNl b) := by
  induction a with
  | nil =>
    simp only [List.nil_append, splitNl, List.dropLast_single, List.getLastD_cons,
      List.getLastD_nil]
    rw [consHead_nil_eq _ (splitNl_ne_nil b)]
  | cons c cs ih =>
    by_cases hc : c = '\n'
    · subst hc
      rw [List.cons_append, splitNl_cons_newline, splitNl_cons_newline, ih,
        List.dropLast_cons_of_ne_nil (splitNl_ne_nil cs), List.getLastD_cons,
        List.cons_append]
    · rw [List.cons_append, splitNl_cons_other c _ hc, splitNl_cons_other c _ hc, ih]
      cases hs : splitNl cs with
      | nil => exact absurd hs (splitNl_ne_nil cs)
      | cons l ls =>
        cases ls with
        | nil =>
          simp only [List.dropLast_single, List.nil_append, List.getLastD_cons,
            List.getLastD_nil]
          rw [consHead_consHead]
          rfl
        | cons l2 ls2 =>
          have hne : (l2 :: ls2 : List (List Char)) ≠ [] := by simp
          simp only [List.dropLast_cons_of_ne_nil hne, List.getLastD_cons, consHead,
            List.cons_append]

/-- A character sequence without newlines splits into the single trailing part. -/
theorem splitNl_of_no_newline (s : List Char) (h : '\n' ∉ s) : splitNl s = [s] := by
  induction s with
  | nil => rfl
  | cons c cs ih =>
    have hc : c ≠ '\n' := fun hcc => h (hcc ▸ List.mem_cons_self c cs)
    rw [splitNl_cons_other c cs hc, ih (fun hm => h (List.mem_cons_of_mem c hm))]
    simp [consHead]

theorem mem_splitNl_no_newline (s : List Char) (l : List Char) (hl : l ∈ splitNl s) :
    '\n' ∉ l := by
  induction s generalizing l with
  | nil =>
    simp only [splitNl, List.mem_singleton] at hl
    simp [hl]
  | cons c cs ih =>
    by_cases hc : c = '\n'
    · subst hc
      rw [splitNl_cons_newline] at hl
      rcases List.mem_cons.mp hl with h | h
      · simp [h]
      · exact ih l h
    · rw [splitNl_cons_other c cs hc] at hl
      cases hs : splitNl cs with
      | nil => exact absurd hs (splitNl_ne_nil cs)
      | cons m ms =>
        rw [hs] at hl
        simp only [consHead, List.mem_cons] at hl
        rcases hl with h | h
        · subst h
          intro hmem
          rcases List.mem_cons.mp hmem with h2 | h2
          · exact hc h2.symm
          · exact ih m (hs ▸ List.mem_cons_self m ms) h2
        · exact ih l (hs ▸ List.mem_cons_of_mem m h)

theorem getLastD_mem {α : Type} (ls : List α) (d : α) (h : ls ≠ []) :
    ls.getLastD d ∈ ls := by
  induction ls generalizing d with
  | nil => exact absurd rfl h
  | cons a l ih =>
    rw [List.getLastD_cons]
    cases l with
    | nil => simp [List.getLastD_nil]
    | cons b m => exact List.mem_cons_of_mem a (ih b (by simp))

/-- Appending newline-free text extends only the trailing part of a split. -/
theorem splitNl_no_newline_append (g b : List Char) (h : '\n' ∉ g) :
    splitNl (g ++ b) = consHead g (splitNl b) := by
  rw [splitNl_append, splitNl_of_no_newline g h]
  simp [consHead, List.getLastD_cons]

/-- The chunked decoder loop computes the same frames as processing the flat
concatenation of the carry-over buffer with all remaining chunks, provided
the buffer holds no newline (which is invariant: it is always the trailing
part of a split). -/
theorem processStreamResponse_eq_procFlat {α : Type} (parse : List Char → Option α)
    (cs : List (List Char)) (buf : List Char) (hbuf : '\n' ∉ buf) :
    processStreamResponse parse cs buf = procFlat parse (buf ++ cs.flatten) := by
  induction cs generalizing buf with
  | nil =>
    simp only [processStreamResponse, List.flatten_nil, List.append_nil, procFlat]
    rw [splitNl_of_no_newline buf hbuf]
    simp
  | cons c cs ih =>
    have hlp : '\n' ∉ (splitNl (buf ++ c)).getLastD [] :=
      mem_splitNl_no_newline (buf ++ c) _
        (getLastD_mem _ _ (splitNl_ne_nil (buf ++ c)))
    simp only [processStreamResponse]
    rw [ih _ hlp, List.flatten_cons, ← List.append_assoc, procFlat, procFlat,
      splitNl_append (buf ++ c) cs.flatten,
      List.dropLast_append_of_ne_nil _ (consHead_ne_nil _ _),
      List.filterMap_append, splitNl_no_newline_append _ _ hlp]

/-- A successful decoding step examines only the bytes it consumes, so
appending further bytes leaves it unchanged. -/
theorem utf8Step_append (a b : List Nat) (c : Char) (r : List Nat)
    (h : utf8Step a = some (c, r)) : utf8Step (a ++ b) = some (c, r ++ b) := by
  cases a with
  | nil => simp [utf8Step] at h
  | cons b0 rest =>
    by_cases h1 : b0 ≤ 127
    · simp only [utf8Step, h1, if_true, Option.some.injEq, Prod.mk.injEq] at h
      obtain ⟨hceq, hreq⟩ := h
      subst hceq
      subst hreq
      simp [utf8Step, h1]
    · by_cases h2 : 194 ≤ b0 ∧ b0 ≤ 223
      · cases rest with
        | nil => simp [utf8Step, h1, h2] at h
        | cons b1 rest2 =>
          cases hc : isCont b1 with
          | false => simp [utf8Step, h1, h2, hc] at h
          | true =>
            simp [utf8Step, h1, h2, hc] at h
            obtain ⟨hceq, hreq⟩ := h
            subst hceq
            subst hreq
            simp [utf8Step, h1, h2, hc]
      · by_cases h3 : 224 ≤ b0 ∧ b0 ≤ 239
        · cases rest with
          | nil => simp [utf8Step, h1, h2, h3] at h
          | cons b1 rest2 =>
            cases rest2 with
            | nil => simp [utf8Step, h1, h2, h3] at h
            | cons b2 rest3 =>
              cases hc : validB1 b0 b1 && isCont b2 with
              | false => simp [utf8Step, h1, h2, h3, hc] at h
              | true =>
                simp [utf8Step, h1, h2, h3, hc] at h
                obtain ⟨hceq, hreq⟩ := h
                subst hceq
                subst hreq
                simp [utf8Step, h1, h2, h3, hc]
        · by_cases h4 : 240 ≤ b0 ∧ b0 ≤ 244
          · cases rest with
            | nil => simp [utf8Step, h1, h2, h3, h4] at h
            | cons b1 rest2 =>
              cases rest2 with
              | nil => simp [utf8Step, h1, h2, h3, h4] at h
              | cons b2 rest3 =>
                cases rest3 with
                | nil => simp [utf8Step, h1, h2, h3, h4] at h
                | cons b3 rest4 =>
                  cases hc : validB1 b0 b1 && isCont b2 && isCont b3 with
                  | false => simp [utf8Step, h1, h2, h3, h4, hc] at h
                  | true =>
                    simp [utf8Step, h1, h2, h3, h4, hc] at h
                    obtain ⟨hceq, hreq⟩ := h
                    subst hceq
                    subst hreq
                    simp [utf8Step, h1, h2, h3, h4, hc]
          · simp [utf8Step, h1, h2, h3, h4] at h

theorem utf8DecodeLoop_mono (fuel : Nat) :
    ∀ (a : List Nat) (sa : List Char), utf8DecodeLoop fuel a = some sa →
      utf8DecodeLoop (fuel + 1) a = some sa := by
  induction fuel with
  | zero =>
    intro a sa h
    cases a with
    | nil => exact h
    | cons b0 rest => simp [utf8DecodeLoop] at h
  | succ fuel ih =>
    intro a sa h
    cases a with
    | nil => exact h
    | cons b0 rest =>
      simp only [utf8DecodeLoop] at h ⊢
      cases hs : utf8Step (b0 :: rest) with
      | none => simp [hs] at h
      | some cr =>
        obtain ⟨c, rest2⟩ := cr
        simp only [hs, Option.some_bind] at h ⊢
        cases hr : utf8DecodeLoop fuel rest2 with
        | none => rw [hr] at h; simp at h
        | some s1 =>
          rw [hr] at h
          rw [ih rest2 s1 hr]
          exact h

theorem utf8DecodeLoop_mono_le (fuel fuel2 : Nat) (hle : fuel ≤ fuel2)
    (a : List Nat) (sa : List Char) (h : utf8DecodeLoop fuel a = some sa) :
    utf8DecodeLoop fuel2 a = some sa := by
  induction fuel2 with
  | zero =>
    have hf : fuel = 0 := by omega
    subst hf
    exact h
  | succ n ih =>
    by_cases hf : fuel = n + 1
    · subst hf; exact h
    · exact utf8DecodeLoop_mono n a sa (ih (by omega))

theorem utf8DecodeLoop_append (fuel : Nat) :
    ∀ (a : List Nat) (sa : List Char), utf8DecodeLoop fuel a = some sa →
      ∀ (b : List Nat) (sb : List Char) (gfuel : Nat),
        utf8DecodeLoop gfuel b = some sb →
        utf8DecodeLoop (fuel + gfuel) (a ++ b) = some (sa ++ sb) := by
  induction fuel with
  | zero =>
    intro a sa h b sb gfuel hb
    cases a with
    | nil =>
      injection h with hsa
      subst hsa
      simpa using hb
    | cons b0 rest => simp [utf8DecodeLoop] at h
  | succ fuel ih =>
    intro a sa h b sb gfuel hb
    cases a with
    | nil =>
      injection h with hsa
      subst hsa
      simpa using utf8DecodeLoop_mono_le gfuel (fuel + 1 + gfuel) (by omega) b sb hb
    | cons b0 rest =>
      simp only [utf8DecodeLoop] at h
      cases hs : utf8Step (b0 :: rest) with
      | none => simp [hs] at h
      | some cr =>
        obtain ⟨c, rest2⟩ := cr
        simp only [hs, Option.some_bind] at h
        cases hr : utf8DecodeLoop fuel rest2 with
        | none => rw [hr] at h; simp at h
        | some s1 =>
          rw [hr] at h
          simp only [Option.map_some'] at h
          injection h with hsa
          have hstep := utf8Step_append (b0 :: rest) b c rest2 hs
          rw [List.cons_append] at hstep
          have hrec := ih rest2 s1 hr b sb gfuel hb
          have harith : fuel + 1 + gfuel = (fuel + gfuel) + 1 := by omega
          rw [List.cons_append, harith]
          simp only [utf8DecodeLoop, hstep, Option.some_bind, hrec, Option.map_some']
          rw [← hsa]
          simp

/-- UTF-8 decoding is a homomorphism on valid byte sequences: decodable
pieces concatenate to a decodable whole with concatenated characters. -/
theorem utf8Decode_append (a b : List Nat) (sa sb : List Char)
    (ha : utf8Decode a = some sa) (hb : utf8Decode b = some sb) :
    utf8Decode (a ++ b) = some (sa ++ sb) := by
  unfold utf8Decode at ha hb ⊢
  rw [List.length_append]
  exact utf8DecodeLoop_append a.length a sa ha b sb b.length hb

/-- When every chunk decodes on its own, the whole byte stream decodes to
the concatenation of the per-chunk characters. -/
theorem utf8Decode_flatten (cs : List (List Nat))
    (hv : ∀ c ∈ cs, (utf8Decode c).isSome = true) :
    utf8Decode cs.flatten =
      some ((cs.map (fun c => (utf8Decode c).getD [])).flatten) := by
  induction cs with
  | nil => rfl
  | cons c cs ih =>
    obtain ⟨s, hs⟩ := Option.isSome_iff_exists.mp (hv c (List.mem_cons_self c cs))
    have hrest : ∀ d ∈ cs, (utf8Decode d).isSome = true :=
      fun d hd => hv d (List.mem_cons_of_mem c hd)
    rw [List.flatten_cons, List.map_cons, List.flatten_cons, hs, Option.getD_some]
    exact utf8Decode_append c cs.flatten s _ hs (ih hrest)

/-- The byte-level loop agrees with the character-level loop whenever every
chunk is valid UTF-8 on its own. -/
theorem processStreamBytes_of_valid {α : Type} (parse : List Char → Option α)
    (cs : List (List Nat)) (buf : List Char)
    (hv : ∀ c ∈ cs, (utf8Decode c).isSome = true) :
    processStreamBytes parse cs buf =
      .ok (processStreamResponse parse
        (cs.map (fun c => (utf8Decode c).getD [])) buf) := by
  induction cs generalizing buf with
  | nil => rfl
  | cons c cs ih =>
    obtain ⟨s, hs⟩ := Option.isSome_iff_exists.mp (hv c (List.mem_cons_self c cs))
    have hrest : ∀ d ∈ cs, (utf8Decode d).isSome = true :=
      fun d hd => hv d (List.mem_cons_of_mem c hd)
    simp only [processStreamBytes, hs, List.map_cons, Option.getD_some,
      processStreamResponse, ih _ hrest]

/-- C3 counterexample: the program is not chunk-boundary invariant at byte
granularity.  The bytes of one data line holding the JSON string with the
two-byte character 0xC3 0xA9, split once at a character boundary and once
inside that character: the first chunking decodes one frame, the second
raises UnicodeDecodeError from chunk.decode (an error result with no frame
sequence at all), so the decoded output differs between the two chunkings
of the same bytes. -/
theorem stream_decoder_byte_split_dependent :
    (∀ c ∈ [[100, 97, 116, 97, 58, 32, 34, 195, 169, 34, 10]], c ≠ ([] : List Nat)) ∧
    (∀ c ∈ [[100, 97, 116, 97, 58, 32, 34, 195], [169, 34, 10]], c ≠ ([] : List Nat)) ∧
    List.flatten [[100, 97, 116, 97, 58, 32, 34, 195, 169, 34, 10]] =
      List.flatten [[100, 97, 116, 97, 58, 32, 34, 195], [169, 34, 10]] ∧
    processStreamBytes (fun s => some s)
        [[100, 97, 116, 97, 58, 32, 34, 195, 169, 34, 10]] [] =
      .ok [['"', 'é', '"']] ∧
    processStreamBytes (fun s => some s)
        [[100, 97, 116, 97, 58, 32, 34, 195], [169, 34, 10]] [] =
      .error "UnicodeDecodeError" ∧
    processStreamBytes (fun s => some s)
        [[100, 97, 116, 97, 58, 32, 34, 195, 169, 34, 10]] [] ≠
      processStreamBytes (fun s => some s)
        [[100, 97, 116, 97, 58, 32, 34, 195], [169, 34, 10]] [] := by
  refine ⟨by decide, by decide, by decide, rfl, rfl, ?_⟩
  intro h
  have h2 : (Except.ok [['"', 'é', '"']] : Except String (List (List Char))) =
      .error "UnicodeDecodeError" := h
  exact Except.noConfusion h2

/-- C3 amended: the decoded frame sequence depends only on the concatenated
bytes for every two chunkings whose non-empty chunks are each individually
valid UTF-8 (equivalently, whose boundaries fall on character boundaries);
a boundary inside a multi-byte character instead raises UnicodeDecodeError
from the per-chunk decode, as the counterexample shows. -/
theorem stream_decoder_chunk_invariance_utf8 {α : Type} (parse : List Char → Option α)
    (cs1 cs2 : List (List Nat))
    (h1 : ∀ c ∈ cs1, c ≠ []) (h2 : ∀ c ∈ cs2, c ≠ [])
    (hv1 : ∀ c ∈ cs1, (utf8Decode c).isSome = true)
    (hv2 : ∀ c ∈ cs2, (utf8Decode c).isSome = true)
    (hflat : cs1.flatten = cs2.flatten) :
    processStreamBytes parse cs1 [] = processStreamBytes parse cs2 [] := by
  rw [processStreamBytes_of_valid parse cs1 [] hv1,
    processStreamBytes_of_valid parse cs2 [] hv2]
  have e1 := utf8Decode_flatten cs1 hv1
  have e2 := utf8Decode_flatten cs2 hv2
  rw [hflat, e2] at e1
  have hchar : (cs2.map (fun c => (utf8Decode c).getD [])).flatten =
      (cs1.map (fun c => (utf8Decode c).getD [])).flatten := Option.some.inj e1
  rw [processStreamResponse_eq_procFlat parse _ [] (by simp),
    processStreamResponse_eq_procFlat parse _ [] (by simp), hchar]

theorem stream_decoder_chunk_invariance_utf8_witness :
    (∀ c ∈ [[100, 97, 116, 97, 58, 32, 49, 10]], c ≠ ([] : List Nat)) ∧
    (∀ c ∈ [[100, 97], [116, 97, 58, 32, 49, 10]], c ≠ ([] : List Nat)) ∧
    (∀ c ∈ [[100, 97, 116, 97, 58, 32, 49, 10]], (utf8Decode c).isSome = true) ∧
    (∀ c ∈ [[100, 97], [116, 97, 58, 32, 49, 10]], (utf8Decode c).isSome = true) ∧
    List.flatten [[100, 97, 116, 97, 58, 32, 49, 10]] =
      List.flatten [[100, 97], [116, 97, 58, 32, 49, 10]] ∧
    processStreamBytes (fun s => some s) [[100, 97, 116, 97, 58, 32, 49, 10]] [] =
      processStreamBytes (fun s => some s) [[100, 97], [116, 97, 58, 32, 49, 10]] [] :=
  ⟨by decide, by decide, by decide, by decide, by decide,
    stream_decoder_chunk_invariance_utf8 (fun s => some s) _ _ (by decide) (by decide)
      (by decide) (by decide) (by decide)⟩

/-- C10: when the bytes of the stream end in a trailing line that is not
terminated by a newline before the stream closes — in particular a complete
data frame line — the decoder never emits a frame for it: the output equals
the frames of the complete lines of the part before the trailing line, the
carry-over buffer being discarded at the zero-length read. -/
theorem trailing_data_line_discarded {α : Type} (parse : List Char → Option α)
    (cs : List (List Char)) (p t : List Char)
    (hflat : cs.flatten = p ++ t)
    (hnl : '\n' ∉ t)
    (hdata : dataMarker.isPrefixOf (pyStrip t) = true) :
    processStreamResponse parse cs [] = procFlat parse p := by
  rw [processStreamResponse_eq_procFlat parse cs [] (by simp), List.nil_append, hflat,
    procFlat, procFlat, splitNl_append p t, splitNl_of_no_newline t hnl]
  cases hs : splitNl p with
  | nil => exact absurd hs (splitNl_ne_nil p)
  | cons l ls => simp [consHead, List.dropLast_concat]

theorem trailing_data_line_discarded_witness :
    List.flatten [['d', 'a', 't', 'a', ':', ' ', '1']] =
      [] ++ ['d', 'a', 't', 'a', ':', ' ', '1'] ∧
    '\n' ∉ ['d', 'a', 't', 'a', ':', ' ', '1'] ∧
    dataMarker.isPrefixOf (pyStrip ['d', 'a', 't', 'a', ':', ' ', '1']) = true ∧
    processStreamResponse (fun s => some s) [['d', 'a', 't', 'a', ':', ' ', '1']] [] =
      procFlat (fun s => some s) [] :=
  ⟨by decide, by decide, by decide,
    trailing_data_line_discarded (fun s => some s) [['d', 'a', 't', 'a', ':', ' ', '1']]
      [] ['d', 'a', 't', 'a', ':', ' ', '1'] (by decide) (by decide) (by decide)⟩

/-! ## Message extractor

Embedding of _extract_last_ai_message (dual_agent_system.py lines 25-51 and
math_agent.py lines 87-113, identical bodies).  A message arrives either as
a structured object exposing type and content attributes, or as an untyped
mapping whose type and content keys may each be present or absent. -/

/-- The two runtime representations of one conversation turn.  structured
models an object where hasattr(msg, "type") and hasattr(msg, "content")
both hold; mapping models a dict whose two relevant keys are optional. -/
inductive Msg where
  | structured (ty : String) (content : String)
  | mapping (ty : Option String) (content : Option String)
deriving DecidableEq

/-- Model of the Python str() applied to the mapping form of a message,
used by the fallback branch when the mapping has no content key.  The exact
rendering is irrelevant to every property proved below; it only matters
that it is a fixed function of the mapping. -/
def pyStrMapping : Option String → Option String → String
  | none, none => "\x7b\x7d"
  | some t, none => "\x7b\x27type\x27: \x27" ++ t ++ "\x27\x7d"
  | none, some c => "\x7b\x27content\x27: \x27" ++ c ++ "\x27\x7d"
  | some t, some c =>
    "\x7b\x27type\x27: \x27" ++ t ++ "\x27, \x27content\x27: \x27" ++ c ++ "\x27\x7d"

/-- The reversed-scan loop of _extract_last_ai_message: the first message
with type "ai" (attribute form checked first, then the mapping form with
a "" default for a missing content key) yields its content. -/
def findAiContent : List Msg → Option String
  | [] => none
  | .structured ty c :: rest => if ty = "ai" then some c else findAiContent rest
  | .mapping ty c :: rest =>
    if ty = some "ai" then some (c.getD "") else findAiContent rest

/-- _extract_last_ai_message: scan the reversed message list for an "ai"
turn; otherwise fall back to the content of the last message (stringifying
a mapping without a content key), and to the fixed sentinel on an empty
list. -/
def extractLastAiMessage (messages : List Msg) : String :=
  match findAiContent messages.reverse with
  | some c => c
  | none =>
    match messages.getLast? with
    | some (.structured _ c) => c
    | some (.mapping ty c) => c.getD (pyStrMapping ty c)
    | none => "No result generated"

/-- Whether a message is an assistant/AI turn, in either representation. -/
def isAiMsg : Msg → Bool
  | .structured ty _ => ty = "ai"
  | .mapping ty _ => ty = some "ai"

/-- Content of an AI message: the content attribute, or the content key
with a "" default. -/
def aiContent : Msg → String
  | .structured _ c => c
  | .mapping _ c => c.getD ""

/-- Content used by the no-AI-message fallback on the last list entry. -/
def fallbackContent : Msg → String
  | .structured _ c => c
  | .mapping ty c => c.getD (pyStrMapping ty c)

/-- Modelled from the spec (section 4.4): return the content of the last
entry whose role/type equals "ai"; if none exists, the content of the very
last entry; if the sequence is empty, the fixed sentinel. -/
def extractLastAssistantTextSpec (messages : List Msg) : String :=
  match messages.reverse.find? isAiMsg with
  | some m => aiContent m
  | none =>
    match messages.getLast? with
    | some m => fallbackContent m
    | none => "No result generated"

theorem findAiContent_eq_find (l : List Msg) :
    findAiContent l = (l.find? isAiMsg).map aiContent := by
  induction l with
  | nil => rfl
  | cons m rest ih =>
    cases m with
    | structured ty c =>
      by_cases h : ty = "ai"
      · simp [findAiContent, List.find?, isAiMsg, h, aiContent]
      · simp [findAiContent, List.find?, isAiMsg, h, ih]
    | mapping ty c =>
      by_cases h : ty = some "ai"
      · simp [findAiContent, List.find?, isAiMsg, h, aiContent]
      · simp [findAiContent, List.find?, isAiMsg, h, ih]

/-- C2: the extractor agrees everywhere with the specified behaviour: the
content of the last "ai" entry in either representation, else the content
of the last entry (stringified when a mapping has no content key), else the
"No result generated" sentinel on the empty sequence; being a total Lean
function it raises nothing.  The spec examples are listed as conjuncts. -/
theorem extractLastAiMessage_meets_spec :
    (∀ messages : List Msg,
      extractLastAiMessage messages = extractLastAssistantTextSpec messages) ∧
    extractLastAiMessage
      [.mapping (some "human") (some "a"), .mapping (some "ai") (some "b"),
        .mapping (some "ai") (some "c")] = "c" ∧
    extractLastAiMessage [.mapping (some "human") (some "a")] = "a" ∧
    extractLastAiMessage [] = "No result generated" := by
  refine ⟨fun messages => ?_, by decide, by decide, rfl⟩
  unfold extractLastAiMessage extractLastAssistantTextSpec
  rw [findAiContent_eq_find]
  cases hf : (messages.reverse.find? isAiMsg) with
  | some m => rfl
  | none =>
    cases hl : messages.getLast? with
    | none => rfl
    | some m => cases m <;> rfl

/-! ## Local question agent

Embedding of QuestionAgent.generate_question (question_agent.py lines
41-91), question_agent_node (lines 111-151) and
DualAgentSystem.generate_question_with_question_agent
(dual_agent_system.py lines 420-464).  The underlying LLM call and the two
places an exception can arise outside it (inside the node, and in the graph
invocation itself) are oracle parameters. -/

/-- Outcome of the one llm.invoke call: the returned message content, or
the exception it raised. -/
inductive ModelOutcome where
  | ok (content : String)
  | exn (msg : String)
deriving DecidableEq

/-- Whether the model invocation raised. -/
def isExnOutcome : ModelOutcome → Bool
  | .ok _ => false
  | .exn _ => true

/-- QuestionAgent.generate_question: an empty math result short-circuits to
a fixed Error text; otherwise the model content is returned, and a model
exception is caught and converted to an Error-prefixed text. -/
def generateQuestion (model : ModelOutcome) (mathResult : String) : String :=
  if mathResult = "" then "Error: No mathematical result provided"
  else
    match model with
    | .ok c => c
    | .exn m => "Error generating question: " ++ m

/-- question_agent_node: reads math_result falling back to
first_agent_result, returns the message list unchanged when both are empty,
and otherwise appends the generated question (or the caught node-level
exception converted to an Error-prefixed message).  Messages are modelled
by their content strings. -/
def questionAgentNode (model : ModelOutcome) (nodeExn : Option String)
    (mathResultKey firstAgentResultKey : String) (messages : List String) : List String :=
  let mathResult := if mathResultKey ≠ "" then mathResultKey else firstAgentResultKey
  if mathResult = "" then messages
  else
    match nodeExn with
    | some m => messages ++ ["Error generating question: " ++ m]
    | none => messages ++ [generateQuestion model mathResult]

/-- generate_question_with_question_agent: invoke the local graph (one
node) on an isolated input with an empty message context; an exception from
the invocation itself is caught and converted to an Error-prefixed string;
an empty resulting message list yields the fixed fallback text; otherwise
the content of the last message is returned. -/
def generateQuestionWithQuestionAgent (model : ModelOutcome)
    (nodeExn invokeExn : Option String) (firstAgentResult : String) : String :=
  match invokeExn with
  | some m => "Error in question agent: " ++ m
  | none =>
    match (questionAgentNode model nodeExn "" firstAgentResult []).getLast? with
    | none => "No question generated by question agent"
    | some c => c

theorem pyStartsWith_append (s t p : String) (h : pyStartsWith s p = true) :
    pyStartsWith (s ++ t) p = true := by
  simp only [pyStartsWith, List.isPrefixOf_iff_prefix] at h ⊢
  have hd : (s ++ t).data = s.data ++ t.data := rfl
  rw [hd]
  exact h.trans (List.prefix_append _ _)

/-- C8 counterexample: a successful model invocation whose generated text
itself begins with "Error" is flagged by the string-prefix check although
no model-invocation failure occurred, so the check does not detect exactly
the failures. -/
theorem question_error_detector_false_positive :
    generateQuestionWithQuestionAgent
        (.ok "Errors aside, what is the square of this result?") none none "42" =
      "Errors aside, what is the square of this result?" ∧
    pyStartsWith "Errors aside, what is the square of this result?" "Error" = true :=
  ⟨by decide, by decide⟩

/-- C8 amended: the local question-generation operation is total (no
exception reaches the caller) and every underlying failure — an exception
in the graph invocation, in the node, or in the model call — yields a
string starting with "Error"; the prefix check therefore detects all such
failures, though it may also fire on a successfully generated question
whose own text begins with "Error". -/
theorem question_agent_failures_error_prefixed (model : ModelOutcome)
    (nodeExn invokeExn : Option String) (firstAgentResult : String)
    (hfail : invokeExn.isSome = true ∨
      (firstAgentResult ≠ "" ∧ (nodeExn.isSome = true ∨ isExnOutcome model = true))) :
    pyStartsWith (generateQuestionWithQuestionAgent model nodeExn invokeExn firstAgentResult)
      "Error" = true := by
  cases invokeExn with
  | some m =>
    exact pyStartsWith_append "Error in question agent: " m "Error" (by decide)
  | none =>
    rcases hfail with h | ⟨hne, h⟩
    · simp at h
    · have hkey : (if ("" : String) ≠ "" then ("" : String) else firstAgentResult) =
          firstAgentResult := by simp
      cases nodeExn with
      | some m =>
        simp only [generateQuestionWithQuestionAgent, questionAgentNode, hkey, if_neg hne,
          List.nil_append, List.getLast?_singleton]
        exact pyStartsWith_append "Error generating question: " m "Error" (by decide)
      | none =>
        cases model with
        | ok c => simp [isExnOutcome] at h
        | exn m =>
          simp only [generateQuestionWithQuestionAgent, questionAgentNode, hkey, if_neg hne,
            generateQuestion, List.nil_append, List.getLast?_singleton]
          exact pyStartsWith_append "Error generating question: " m "Error" (by decide)

theorem question_agent_failures_error_prefixed_witness :
    ((none : Option String).isSome = true ∨
      (("42" : String) ≠ "" ∧
        ((none : Option String).isSome = true ∨ isExnOutcome (.exn "boom") = true))) ∧
    pyStartsWith (generateQuestionWithQuestionAgent (.exn "boom") none none "42")
      "Error" = true :=
  ⟨by decide,
    question_agent_failures_error_prefixed (.exn "boom") none none "42" (by decide)⟩

/-! ## Workflow driver

Embedding of DualAgentSystem.run_dual_agent_workflow (dual_agent_system.py
lines 468-558).  The two remote math-agent calls (step 1 and the per-round
answer) and the per-round question generation are oracle functions: the
workflow only inspects their returned envelope (success flag, result
string, error string) and, for the question, whether the returned text
starts with "Error". -/

/-- Envelope of one run_math_agent call as the workflow sees it: the result
string of a success, or the error string of a failure. -/
inductive MathResult where
  | ok (result : String)
  | err (error : String)
deriving DecidableEq

/-- The success flag of a math-agent envelope. -/
def isOkResult : MathResult → Bool
  | .ok _ => true
  | .err _ => false

/-- One entry of the question_rounds list: the dict literal appended by the
workflow loop, with null fields modelled as none. -/
structure RoundRecord where
  round : Nat
  generated_question : Option String
  answer : Option String
  error : Option String
deriving DecidableEq

/-- The for-loop of run_dual_agent_workflow over the remaining rounds:
cur is current_result, i the 0-based loop index.  A question text starting
with "Error" appends a failure record and breaks; a failed math answer
appends a failure record and breaks; otherwise a success record is
appended and the loop continues with the new answer. -/
def roundsLoop (qg : Nat → String → String) (ans : Nat → String → MathResult) :
    String → Nat → Nat → List RoundRecord
  | _, _, 0 => []
  | cur, i, n + 1 =>
    let q := qg i cur
    if pyStartsWith q "Error" then
      [⟨i + 1, none, none, some q⟩]
    else
      match ans i q with
      | .err e => [⟨i + 1, some q, none, some e⟩]
      | .ok a => ⟨i + 1, some q, some a, none⟩ :: roundsLoop qg ans a (i + 1) n

/-- The oracle environment of one workflow invocation: the step-1 math
call, the question generator per round, and the math answer per round. -/
structure WorkflowEnv where
  step1 : MathResult
  qg : Nat → String → String
  ans : Nat → String → MathResult

/-- The shape of the dict returned by run_dual_agent_workflow: the step-1
failure return carries a top-level error key and an empty round list; the
normal return carries the query, the step-1 result and the round list, and
no top-level error key. -/
inductive WorkflowOutcome where
  | step1Failed (error : String)
  | completed (originalQuery : String) (step1Result : String) (rounds : List RoundRecord)
deriving DecidableEq

/-- run_dual_agent_workflow. -/
def runDualAgentWorkflow (env : WorkflowEnv) (userQuery : String)
    (questionRounds : Nat) : WorkflowOutcome :=
  match env.step1 with
  | .err e => .step1Failed ("First math agent failed: " ++ e)
  | .ok r => .completed userQuery r (roundsLoop env.qg env.ans r 0 questionRounds)

/-- The question_rounds entry of the returned dict. -/
def questionRoundsOf : WorkflowOutcome → List RoundRecord
  | .step1Failed _ => []
  | .completed _ _ rs => rs

/-- Whether the returned dict has a top-level error key. -/
def hasTopLevelError : WorkflowOutcome → Bool
  | .step1Failed _ => true
  | .completed _ _ _ => false

/-- The value of current_result entering 0-based round i, along the
execution trace that starts from the step-1 result c0. -/
def curAt (qg : Nat → String → String) (ans : Nat → String → MathResult)
    (c0 : String) : Nat → String
  | 0 => c0
  | i + 1 =>
    let c := curAt qg ans c0 i
    match ans i (qg i c) with
    | .ok a => a
    | .err _ => c

/-- Round i succeeds along the trace: the generated question does not start
with "Error" and the math answer to it succeeds. -/
def stepOk (qg : Nat → String → String) (ans : Nat → String → MathResult)
    (c0 : String) (i : Nat) : Bool :=
  !pyStartsWith (qg i (curAt qg ans c0 i)) "Error" &&
    isOkResult (ans i (qg i (curAt qg ans c0 i)))

/-- The success record appended for a succeeding round i. -/
def okRecord (qg : Nat → String → String) (ans : Nat → String → MathResult)
    (c0 : String) (i : Nat) : RoundRecord :=
  ⟨i + 1, some (qg i (curAt qg ans c0 i)), some (curAt qg ans c0 (i + 1)), none⟩

theorem roundsLoop_step_ok (qg : Nat → String → String)
    (ans : Nat → String → MathResult) (c0 : String) (k m : Nat) (a : String)
    (hq : pyStartsWith (qg k (curAt qg ans c0 k)) "Error" = false)
    (hcase : ans k (qg k (curAt qg ans c0 k)) = .ok a) :
    roundsLoop qg ans (curAt qg ans c0 k) k (m + 1) =
      okRecord qg ans c0 k :: roundsLoop qg ans (curAt qg ans c0 (k + 1)) (k + 1) m := by
  have hc1 : curAt qg ans c0 (k + 1) = a := by simp [curAt, hcase]
  simp only [roundsLoop, hq, Bool.false_eq_true, if_false, hcase, okRecord, hc1]

theorem roundsLoop_unroll (qg : Nat → String → String)
    (ans : Nat → String → MathResult) (c0 : String) (k n : Nat) (hk : k ≤ n)
    (hok : ∀ j < k, stepOk qg ans c0 j = true) :
    roundsLoop qg ans c0 0 n =
      (List.range k).map (okRecord qg ans c0) ++
        roundsLoop qg ans (curAt qg ans c0 k) k (n - k) := by
  induction k with
  | zero => simp [curAt]
  | succ k ih =>
    have hok2 : ∀ j < k, stepOk qg ans c0 j = true :=
      fun j hj => hok j (Nat.lt_succ_of_lt hj)
    rw [ih (Nat.le_of_succ_le hk) hok2]
    have hsub : n - k = (n - (k + 1)) + 1 := by omega
    have hstep := hok k (Nat.lt_succ_self k)
    simp only [stepOk, Bool.and_eq_true, Bool.not_eq_true'] at hstep
    obtain ⟨hq, ha⟩ := hstep
    cases hcase : ans k (qg k (curAt qg ans c0 k)) with
    | err e => rw [hcase] at ha; simp [isOkResult] at ha
    | ok a =>
      rw [hsub, roundsLoop_step_ok qg ans c0 k _ a hq hcase, List.range_succ,
        List.map_append, List.append_assoc]
      rfl

theorem roundsLoop_step_fail (qg : Nat → String → String)
    (ans : Nat → String → MathResult) (c0 : String) (k m : Nat)
    (hfail : stepOk qg ans c0 k = false) :
    ∃ rec : RoundRecord,
      roundsLoop qg ans (curAt qg ans c0 k) k (m + 1) = [rec] ∧
        rec.round = k + 1 ∧ rec.error.isSome = true := by
  by_cases hq : pyStartsWith (qg k (curAt qg ans c0 k)) "Error" = true
  · exact ⟨⟨k + 1, none, none, some (qg k (curAt qg ans c0 k))⟩,
      by simp [roundsLoop, hq], rfl, rfl⟩
  · rw [Bool.not_eq_true] at hq
    cases hcase : ans k (qg k (curAt qg ans c0 k)) with
    | ok a =>
      rw [stepOk, hq, hcase] at hfail
      simp [isOkResult] at hfail
    | err e =>
      exact ⟨⟨k + 1, some (qg k (curAt qg ans c0 k)), none, some e⟩,
        by simp [roundsLoop, hq, hcase], rfl, rfl⟩

/-- C1: when every round before 0-based round i succeeds and round i fails
(the generated question starts with "Error", or the math answer fails),
the question_rounds list of the workflow result has length exactly i + 1:
the first i records are the success records of rounds 1..i with a null
error, the last record is round i + 1 with a non-null error, and no later
round is attempted. -/
theorem workflow_rounds_prefix (env : WorkflowEnv) (userQuery c0 : String)
    (n i : Nat) (hstep1 : env.step1 = .ok c0) (hn : 1 ≤ n)
    (hok : ∀ j < i, stepOk env.qg env.ans c0 j = true)
    (hfail : stepOk env.qg env.ans c0 i = false) (hi : i < n) :
    (questionRoundsOf (runDualAgentWorkflow env userQuery n)).length = i + 1 ∧
    (∀ k < i, ∃ rec : RoundRecord,
      (questionRoundsOf (runDualAgentWorkflow env userQuery n))[k]? = some rec ∧
        rec.error = none ∧ rec.round = k + 1) ∧
    (∃ rec : RoundRecord,
      (questionRoundsOf (runDualAgentWorkflow env userQuery n))[i]? = some rec ∧
        rec.error.isSome = true ∧ rec.round = i + 1) := by
  have hrw : questionRoundsOf (runDualAgentWorkflow env userQuery n) =
      roundsLoop env.qg env.ans c0 0 n := by
    simp [runDualAgentWorkflow, hstep1, questionRoundsOf]
  have hsub : n - i = (n - (i + 1)) + 1 := by omega
  obtain ⟨rec, hrec, hround, herr⟩ :=
    roundsLoop_step_fail env.qg env.ans c0 i (n - (i + 1)) hfail
  have hfull : questionRoundsOf (runDualAgentWorkflow env userQuery n) =
      (List.range i).map (okRecord env.qg env.ans c0) ++ [rec] := by
    rw [hrw, roundsLoop_unroll env.qg env.ans c0 i n (Nat.le_of_lt hi) hok, hsub, hrec]
  refine ⟨?_, ?_, ?_⟩
  · simp [hfull]
  · intro k hk
    refine ⟨okRecord env.qg env.ans c0 k, ?_, rfl, rfl⟩
    rw [hfull, List.getElem?_append]
    simp [hk, List.getElem?_range]
  · refine ⟨rec, ?_, herr, hround⟩
    rw [hfull, List.getElem?_append_right (by simp)]
    simp

/-- A concrete question generator for the witness runs: round 1 yields a
plain question, round 2 yields an Error-prefixed text. -/
def sampleQg : Nat → String → String :=
  fun i _ => if i = 0 then "What is twice that?" else "Error boom"

/-- A concrete always-succeeding math answer oracle for the witness runs. -/
def sampleAns : Nat → String → MathResult := fun _ _ => .ok "84"

/-- A concrete workflow environment: step 1 succeeds, round 1 succeeds,
round 2 question generation fails. -/
def sampleEnv : WorkflowEnv := ⟨.ok "42", sampleQg, sampleAns⟩

theorem workflow_rounds_prefix_witness :
    sampleEnv.step1 = .ok "42" ∧ 1 ≤ 3 ∧
    (∀ j < 1, stepOk sampleEnv.qg sampleEnv.ans "42" j = true) ∧
    stepOk sampleEnv.qg sampleEnv.ans "42" 1 = false ∧ 1 < 3 ∧
    ((questionRoundsOf (runDualAgentWorkflow sampleEnv "some query" 3)).length = 1 + 1 ∧
    (∀ k < 1, ∃ rec : RoundRecord,
      (questionRoundsOf (runDualAgentWorkflow sampleEnv "some query" 3))[k]? = some rec ∧
        rec.error = none ∧ rec.round = k + 1) ∧
    (∃ rec : RoundRecord,
      (questionRoundsOf (runDualAgentWorkflow sampleEnv "some query" 3))[1]? = some rec ∧
        rec.error.isSome = true ∧ rec.round = 1 + 1)) :=
  ⟨rfl, by decide,
    fun j hj => by
      have hj0 : j = 0 := Nat.lt_one_iff.mp hj
      subst hj0
      decide,
    by decide, by decide,
    workflow_rounds_prefix sampleEnv "some query" "42" 3 1 rfl (by decide)
      (fun j hj => by
        have hj0 : j = 0 := Nat.lt_one_iff.mp hj
        subst hj0
        decide)
      (by decide) (by decide)⟩

/-- C9: the returned aggregate has a top-level error key exactly when the
step-1 math invocation fails; when step 1 succeeds and a later round fails,
no top-level error key is present and the failure sits only inside the
question_rounds entry, so a caller checking only the top-level key treats
the run as successful. -/
theorem top_level_error_only_for_step1 (env : WorkflowEnv) (userQuery c0 : String)
    (n i : Nat) :
    (hasTopLevelError (runDualAgentWorkflow env userQuery n) = true ↔
      isOkResult env.step1 = false) ∧
    (env.step1 = .ok c0 → (∀ j < i, stepOk env.qg env.ans c0 j = true) →
      stepOk env.qg env.ans c0 i = false → i < n →
      hasTopLevelError (runDualAgentWorkflow env userQuery n) = false ∧
      ∃ rec : RoundRecord,
        (questionRoundsOf (runDualAgentWorkflow env userQuery n))[i]? = some rec ∧
          rec.error.isSome = true) := by
  constructor
  · cases henv : env.step1 with
    | ok r => simp [runDualAgentWorkflow, henv, hasTopLevelError, isOkResult]
    | err e => simp [runDualAgentWorkflow, henv, hasTopLevelError, isOkResult]
  · intro hstep1 hok hfail hi
    constructor
    · simp [runDualAgentWorkflow, hstep1, hasTopLevelError]
    · have hrw : questionRoundsOf (runDualAgentWorkflow env userQuery n) =
          roundsLoop env.qg env.ans c0 0 n := by
        simp [runDualAgentWorkflow, hstep1, questionRoundsOf]
      have hsub : n - i = (n - (i + 1)) + 1 := by omega
      obtain ⟨rec, hrec, hround, herr⟩ :=
        roundsLoop_step_fail env.qg env.ans c0 i (n - (i + 1)) hfail
      refine ⟨rec, ?_, herr⟩
      rw [hrw, roundsLoop_unroll env.qg env.ans c0 i n (Nat.le_of_lt hi) hok, hsub, hrec,
        List.getElem?_append_right (by simp)]
      simp

theorem top_level_error_only_for_step1_witness :
    (hasTopLevelError (runDualAgentWorkflow sampleEnv "some query" 3) = true ↔
      isOkResult sampleEnv.step1 = false) ∧
    (sampleEnv.step1 = .ok "42" ∧
      hasTopLevelError (runDualAgentWorkflow sampleEnv "some query" 3) = false ∧
      ∃ rec : RoundRecord,
        (questionRoundsOf (runDualAgentWorkflow sampleEnv "some query" 3))[1]? = some rec ∧
          rec.error.isSome = true) :=
  ⟨(top_level_error_only_for_step1 sampleEnv "some query" "42" 3 1).1,
    rfl,
    ((top_level_error_only_for_step1 sampleEnv "some query" "42" 3 1).2 rfl
      (fun j hj => by
        have hj0 : j = 0 := Nat.lt_one_iff.mp hj
        subst hj0
        decide)
      (by decide) (by decide)).1,
    ((top_level_error_only_for_step1 sampleEnv "some query" "42" 3 1).2 rfl
      (fun j hj => by
        have hj0 : j = 0 := Nat.lt_one_iff.mp hj
        subst hj0
        decide)
      (by decide) (by decide)).2⟩

/-! ## Transport client: thread creation

Embedding of DualAgentSystem._create_thread (dual_agent_system.py lines
53-94); MathAgent._create_thread (math_agent.py lines 115-139) behaves the
same on the cases below.  The HTTP exchange is an oracle value; json.loads
is the parameter parse, returning none when loads would raise. -/

/-- A JSON value as returned by json.loads. -/
inductive JsonVal where
  | null
  | bool (b : Bool)
  | num (n : Int)
  | str (s : String)
  | arr (elems : List JsonVal)
  | obj (fields : List (String × JsonVal))

/-- Model of dict.get on a parsed JSON object. -/
def lookupField (fields : List (String × JsonVal)) (key : String) : Option JsonVal :=
  (fields.find? (fun kv => kv.1 == key)).map (fun kv => kv.2)

/-- What one HTTP request produced: a raised exception, or a response with
its status and raw body. -/
inductive HttpOutcome where
  | exn (msg : String)
  | resp (status : Nat) (body : String)

/-- The envelope returned by _create_thread: a success dict carrying
result.get of the identifier key (none when the key is absent) and the
parsed response, or a failure dict carrying an error text. -/
inductive CreateThreadRes where
  | ok (threadId : Option JsonVal) (response : JsonVal)
  | fail (error : String)

/-- _create_thread: on status 200 the body is parsed; a JSON-decode failure
or a non-dict body raises inside the try block and is caught as a failure
envelope; a parsed dict yields a success envelope whose thread_id is the
result of dict.get, even when the key is absent.  A non-200 status or a
connection exception yields a failure envelope. -/
def createThread (parse : String → Option JsonVal) (out : HttpOutcome) : CreateThreadRes :=
  match out with
  | .exn m => .fail ("Exception creating thread: " ++ m)
  | .resp status body =>
    if status = 200 then
      match parse body with
      | some (.obj fields) => .ok (lookupField fields "thread_id") (.obj fields)
      | some _ => .fail "Exception creating thread: response object has no attribute get"
      | none => .fail "Exception creating thread: invalid JSON body"
    else .fail ("Failed to create thread: " ++ toString status ++ " - " ++ body)

/-- The success flag of a _create_thread envelope. -/
def isSuccessCreate : CreateThreadRes → Bool
  | .ok _ _ => true
  | .fail _ => false

/-- A json.loads model that parses every body to the empty JSON object, as
for the body consisting of the two brace characters. -/
def emptyObjLoads : String → Option JsonVal := fun _ => some (.obj [])

/-- C7 counterexample: a 200 response whose parsable JSON object body lacks
the thread_id field yields a SUCCESS envelope with a null identifier, not
the failure envelope the claim requires. -/
theorem create_thread_missing_id_success :
    createThread emptyObjLoads (.resp 200 "\x7b\x7d") = .ok none (.obj []) ∧
    isSuccessCreate (createThread emptyObjLoads (.resp 200 "\x7b\x7d")) = true :=
  ⟨rfl, rfl⟩

/-- C7 amended: create_thread returns a success envelope if and only if the
platform responds with status 200 and a body parsing to a JSON object; a
missing identifier field does not cause failure — the success envelope then
carries a null thread identifier.  Non-200 status, malformed JSON and
non-object JSON all yield failure envelopes. -/
theorem create_thread_success_iff (parse : String → Option JsonVal) (out : HttpOutcome) :
    (isSuccessCreate (createThread parse out) = true ↔
      ∃ body fields, out = .resp 200 body ∧ parse body = some (.obj fields)) ∧
    (∀ body fields, out = .resp 200 body → parse body = some (.obj fields) →
      lookupField fields "thread_id" = none →
      createThread parse out = .ok none (.obj fields)) := by
  constructor
  · constructor
    · intro h
      cases out with
      | exn m => simp [createThread, isSuccessCreate] at h
      | resp status body =>
        by_cases hs : status = 200
        · subst hs
          cases hp : parse body with
          | none => simp [createThread, hp, isSuccessCreate] at h
          | some v =>
            cases v with
            | obj fields => exact ⟨body, fields, rfl, hp⟩
            | null => simp [createThread, hp, isSuccessCreate] at h
            | bool b => simp [createThread, hp, isSuccessCreate] at h
            | num n => simp [createThread, hp, isSuccessCreate] at h
            | str s => simp [createThread, hp, isSuccessCreate] at h
            | arr es => simp [createThread, hp, isSuccessCreate] at h
        · simp [createThread, hs, isSuccessCreate] at h
    · rintro ⟨body, fields, rfl, hp⟩
      simp [createThread, hp, isSuccessCreate]
  · rintro body fields rfl hp hid
    simp [createThread, hp, hid]

theorem create_thread_success_iff_witness :
    ((.resp 200 "\x7b\x7d" : HttpOutcome) = .resp 200 "\x7b\x7d") ∧
    emptyObjLoads "\x7b\x7d" = some (.obj []) ∧
    lookupField [] "thread_id" = none ∧
    createThread emptyObjLoads (.resp 200 "\x7b\x7d") = .ok none (.obj []) :=
  ⟨rfl, rfl, rfl,
    (create_thread_success_iff emptyObjLoads (.resp 200 "\x7b\x7d")).2 "\x7b\x7d" []
      rfl rfl rfl⟩

/-! ## Run coordination: polling loop

Embedding of MathAgent._run_on_thread_polling and
MathAgent._wait_for_completion (math_agent.py lines 262-346); the inline
polling loop of DualAgentSystem._run_on_thread (dual_agent_system.py lines
234-299) has the same structure.  Every loop iteration performs one state
fetch and, unless it observes completion, sleeps check_interval seconds and
adds check_interval to waited; hence with waited starting at 0 the body
runs while i * interval < max_wait, i.e. exactly ceil(max_wait / interval)
times before the timeout exit.  Fetch outcomes are an oracle indexed by
fetch number. -/

/-- A thread state document: its optional next field (the list of pending
step names) and an opaque payload standing for the rest of the mapping. -/
structure StateDoc where
  next : Option (List String)
  payload : String
deriving DecidableEq

/-- The Python truthiness test: the next key is present and its list
non-empty. -/
def hasPendingNext (sd : StateDoc) : Bool :=
  match sd.next with
  | some (_ :: _) => true
  | _ => false

/-- Outcome of one _get_thread_state call. -/
inductive FetchRes where
  | ok (sd : StateDoc)
  | fail (err : String)
deriving DecidableEq

/-- Whether a fetch observes completion: a successful fetch of a document
whose next field is absent or empty. -/
def isCompleteFetch : FetchRes → Bool
  | .ok sd => !hasPendingNext sd
  | .fail _ => false

/-- Result of the while loop of _wait_for_completion: completion observed
at fetch index k, or loop exit by the waited ceiling after k fetches. -/
inductive LoopRes where
  | complete (k : Nat) (sd : StateDoc)
  | timeout (k : Nat)
deriving DecidableEq

/-- The while loop: fuel is the number of remaining iterations, k the index
of the next fetch.  A successful fetch with empty next returns completion;
any other fetch outcome sleeps and continues. -/
def waitLoop (fetch : Nat → FetchRes) : Nat → Nat → LoopRes
  | 0, k => .timeout k
  | fuel + 1, k =>
    match fetch k with
    | .ok sd => if hasPendingNext sd then waitLoop fetch fuel (k + 1) else .complete k sd
    | .fail _ => waitLoop fetch fuel (k + 1)

/-- Number of loop-body iterations of the polling wait: the count of i with
i * interval < maxWait, i.e. ceil(maxWait / interval) for interval ≥ 1. -/
def pollIters (maxWait interval : Nat) : Nat := (maxWait + interval - 1) / interval

/-- The dict returned by _wait_for_completion, with the observable fetch
and sleep counts of the run recorded alongside. -/
structure PollFinal where
  success : Bool
  result : Option StateDoc
  warning : Option String
  fetchCount : Nat
  sleepCount : Nat
deriving DecidableEq

/-- _wait_for_completion: poll until the state document has no pending next
steps; on ceiling exceeded, perform one final state fetch and return a
success envelope carrying its state (or the initial run response when the
fetch fails) plus the timeout warning.  Every path returns success.  Each
fetch before the returning one was followed by one sleep. -/
def waitForCompletion (fetch : Nat → FetchRes) (runData : StateDoc)
    (maxWait interval : Nat) : PollFinal :=
  match waitLoop fetch (pollIters maxWait interval) 0 with
  | .complete k sd => ⟨true, some sd, none, k + 1, k⟩
  | .timeout k =>
    match fetch k with
    | .ok sd => ⟨true, some sd, some "Timeout waiting for completion", k + 1, k⟩
    | .fail _ => ⟨true, some runData, some "Timeout waiting for completion", k + 1, k⟩

theorem waitLoop_timeout (fetch : Nat → FetchRes) (fuel k0 : Nat)
    (h : ∀ j < fuel, isCompleteFetch (fetch (k0 + j)) = false) :
    waitLoop fetch fuel k0 = .timeout (k0 + fuel) := by
  induction fuel generalizing k0 with
  | zero => rfl
  | succ fuel ih =>
    have h0 : isCompleteFetch (fetch k0) = false := by
      have := h 0 (Nat.succ_pos fuel)
      simpa using this
    have hrest : ∀ j < fuel, isCompleteFetch (fetch (k0 + 1 + j)) = false := by
      intro j hj
      have := h (j + 1) (by omega)
      have harith : k0 + (j + 1) = k0 + 1 + j := by omega
      rwa [harith] at this
    have htail : waitLoop fetch fuel (k0 + 1) = .timeout (k0 + 1 + fuel) := ih _ hrest
    have harith2 : k0 + 1 + fuel = k0 + (fuel + 1) := by omega
    cases hc : fetch k0 with
    | ok sd =>
      rw [hc] at h0
      have hp : hasPendingNext sd = true := by
        simpa [isCompleteFetch] using h0
      simp only [waitLoop, hc, hp, if_true]
      rw [htail, harith2]
    | fail e =>
      simp only [waitLoop, hc]
      rw [htail, harith2]

/-- C5: when no fetch within the loop bound observes completion, the
coordinator performs exactly one additional state fetch beyond the loop,
returns a SUCCESS envelope carrying that fetch's state (or the initial run
response when the final fetch fails) and the timeout warning; it never
returns a failure envelope because of poll timeout. -/
theorem poll_timeout_best_effort (fetch : Nat → FetchRes) (runData : StateDoc)
    (maxWait interval : Nat) (hint : 1 ≤ interval)
    (hnc : ∀ j < pollIters maxWait interval, isCompleteFetch (fetch j) = false) :
    (waitForCompletion fetch runData maxWait interval).success = true ∧
    (waitForCompletion fetch runData maxWait interval).warning =
      some "Timeout waiting for completion" ∧
    (waitForCompletion fetch runData maxWait interval).fetchCount =
      pollIters maxWait interval + 1 ∧
    (waitForCompletion fetch runData maxWait interval).result =
      (match fetch (pollIters maxWait interval) with
        | .ok sd => some sd
        | .fail _ => some runData) := by
  have hloop : waitLoop fetch (pollIters maxWait interval) 0 =
      .timeout (pollIters maxWait interval) := by
    have := waitLoop_timeout fetch (pollIters maxWait interval) 0
      (by simpa using hnc)
    simpa using this
  unfold waitForCompletion
  rw [hloop]
  cases hc : fetch (pollIters maxWait interval) <;> simp [hc]

theorem poll_timeout_best_effort_witness :
    1 ≤ 2 ∧
    (∀ j < pollIters 4 2, isCompleteFetch ((fun _ => .fail "down") j) = false) ∧
    ((waitForCompletion (fun _ => .fail "down") ⟨none, "run data"⟩ 4 2).success = true ∧
    (waitForCompletion (fun _ => .fail "down") ⟨none, "run data"⟩ 4 2).warning =
      some "Timeout waiting for completion" ∧
    (waitForCompletion (fun _ => .fail "down") ⟨none, "run data"⟩ 4 2).fetchCount =
      pollIters 4 2 + 1 ∧
    (waitForCompletion (fun _ => .fail "down") ⟨none, "run data"⟩ 4 2).result =
      (match (fun _ => .fail "down" : Nat → FetchRes) (pollIters 4 2) with
        | .ok sd => some sd
        | .fail _ => some ⟨none, "run data"⟩)) :=
  ⟨by decide, fun j hj => rfl,
    poll_timeout_best_effort (fun _ => .fail "down") ⟨none, "run data"⟩ 4 2
      (by decide) (fun j hj => rfl)⟩

theorem waitLoop_complete_sound (fetch : Nat → FetchRes) (fuel k0 k : Nat)
    (sd : StateDoc) (h : waitLoop fetch fuel k0 = .complete k sd) :
    fetch k = .ok sd ∧ hasPendingNext sd = false := by
  induction fuel generalizing k0 with
  | zero => simp [waitLoop] at h
  | succ fuel ih =>
    cases hc : fetch k0 with
    | ok sd0 =>
      cases hp : hasPendingNext sd0 with
      | true =>
        simp only [waitLoop, hc, hp, if_true] at h
        exact ih (k0 + 1) h
      | false =>
        simp only [waitLoop, hc, hp, Bool.false_eq_true, if_false] at h
        injection h with hk hsd
        subst hk
        subst hsd
        exact ⟨hc, hp⟩
    | fail e =>
      simp only [waitLoop, hc] at h
      exact ih (k0 + 1) h

theorem waitLoop_first_complete (fetch : Nat → FetchRes) (fuel k0 k : Nat)
    (sd : StateDoc) (hk0 : k0 ≤ k) (hk : k < k0 + fuel)
    (hfetch : fetch k = .ok sd) (hnext : hasPendingNext sd = false)
    (hbefore : ∀ j, k0 ≤ j → j < k → isCompleteFetch (fetch j) = false) :
    waitLoop fetch fuel k0 = .complete k sd := by
  induction fuel generalizing k0 with
  | zero => omega
  | succ fuel ih =>
    by_cases hke : k = k0
    · subst hke
      simp only [waitLoop, hfetch, hnext, Bool.false_eq_true, if_false]
    · have hlt : k0 < k := by omega
      have h0 : isCompleteFetch (fetch k0) = false :=
        hbefore k0 (Nat.le_refl k0) hlt
      have hrest : ∀ j, k0 + 1 ≤ j → j < k → isCompleteFetch (fetch j) = false :=
        fun j hj1 hj2 => hbefore j (by omega) hj2
      have htail : waitLoop fetch fuel (k0 + 1) = .complete k sd :=
        ih (k0 + 1) (by omega) (by omega) hrest
      cases hc : fetch k0 with
      | ok sd0 =>
        rw [hc] at h0
        have hp : hasPendingNext sd0 = true := by
          simpa [isCompleteFetch] using h0
        simp only [waitLoop, hc, hp, if_true]
        exact htail
      | fail e =>
        simp only [waitLoop, hc]
        exact htail

theorem pollIters_pos (maxWait interval : Nat) (h1 : 1 ≤ interval)
    (h2 : 1 ≤ maxWait) : 1 ≤ pollIters maxWait interval := by
  rw [pollIters, Nat.le_div_iff_mul_le (by omega)]
  omega

/-- C6: the polling loop reports completion exactly at a successful state
fetch whose document has an absent or empty next field: every completion
comes from such a fetch, the first such fetch within the loop bound is the
one reported, and when the very first fetch already observes completion the
coordinator returns a success envelope carrying that state with no timeout
warning, a single fetch, and zero sleep cycles. -/
theorem poll_completion_characterization (fetch : Nat → FetchRes)
    (runData : StateDoc) (maxWait interval : Nat)
    (h1 : 1 ≤ interval) (h2 : 1 ≤ maxWait) :
    (∀ k sd, waitLoop fetch (pollIters maxWait interval) 0 = .complete k sd →
      fetch k = .ok sd ∧ hasPendingNext sd = false) ∧
    (∀ k sd, k < pollIters maxWait interval → fetch k = .ok sd →
      hasPendingNext sd = false → (∀ j < k, isCompleteFetch (fetch j) = false) →
      waitLoop fetch (pollIters maxWait interval) 0 = .complete k sd) ∧
    (∀ sd, fetch 0 = .ok sd → hasPendingNext sd = false →
      waitForCompletion fetch runData maxWait interval =
        ⟨true, some sd, none, 1, 0⟩) := by
  refine ⟨?_, ?_, ?_⟩
  · intro k sd h
    exact waitLoop_complete_sound fetch _ 0 k sd h
  · intro k sd hk hfetch hnext hbefore
    exact waitLoop_first_complete fetch _ 0 k sd (Nat.zero_le k) (by omega)
      hfetch hnext (fun j hj1 hj2 => hbefore j hj2)
  · intro sd hfetch hnext
    have hiters := pollIters_pos maxWait interval h1 h2
    have hloop : waitLoop fetch (pollIters maxWait interval) 0 = .complete 0 sd :=
      waitLoop_first_complete fetch _ 0 0 sd (Nat.le_refl 0) (by omega)
      hfetch hnext (fun j hj1 hj2 => by omega)
    rw [waitForCompletion, hloop]

theorem poll_completion_characterization_witness :
    1 ≤ 2 ∧ 1 ≤ 4 ∧
    (fun _ => FetchRes.ok ⟨some [], "done state"⟩ : Nat → FetchRes) 0 =
      .ok ⟨some [], "done state"⟩ ∧
    hasPendingNext ⟨some [], "done state"⟩ = false ∧
    waitForCompletion (fun _ => FetchRes.ok ⟨some [], "done state"⟩)
        ⟨none, "run data"⟩ 4 2 =
      ⟨true, some ⟨some [], "done state"⟩, none, 1, 0⟩ :=
  ⟨by decide, by decide, rfl, rfl,
    (poll_completion_characterization (fun _ => FetchRes.ok ⟨some [], "done state"⟩)
        ⟨none, "run data"⟩ 4 2 (by decide) (by decide)).2.2
      ⟨some [], "done state"⟩ rfl rfl⟩

/-! ## Run coordination: streaming with polling fallback

Embedding of MathAgent._run_on_thread and _run_on_thread_stream
(math_agent.py lines 163-260) on top of the decoder and the polling loop
above; DualAgentSystem._run_on_thread (dual_agent_system.py lines 216-310)
has the same control flow with the polling loop inlined. -/

/-- The three ways one streaming request can go as observed by
_run_on_thread_stream: a non-success initial status, an exception while
connecting or reading, or a successfully opened stream with its body
chunks. -/
inductive StreamAttempt where
  | badStatus (status : Nat) (body : String)
  | exn (msg : String)
  | okStream (chunks : List (List Char))

/-- _run_on_thread_stream composed with the decoder: a failure envelope on
a bad initial status, on an exception, or on an empty decoded frame list;
otherwise a success envelope carrying the last frame as the final state
together with all frames. -/
def runOnThreadStream {α : Type} (parse : List Char → Option α) :
    StreamAttempt → Except String (α × List α)
  | .badStatus status body =>
    .error ("Stream request failed: " ++ toString status ++ " - " ++ body)
  | .exn m => .error ("Exception running stream on thread: " ++ m)
  | .okStream chunks =>
    match (processStreamResponse parse chunks []).getLast? with
    | none => .error "No data received from stream"
    | some f => .ok (f, processStreamResponse parse chunks [])

/-- Outcome of the non-streaming run creation request, already through
_make_http_request: an error envelope, or a parsed body with the value of
its run_id key (none when absent) and the opaque run data. -/
inductive CreateRunRes where
  | fail (err : String)
  | ok (runId : Option String) (runData : StateDoc)

/-- The oracle for one polling-path invocation: the run creation outcome
and the state fetch sequence. -/
structure PollEnv where
  create : CreateRunRes
  fetch : Nat → FetchRes

/-- Envelope returned by _run_on_thread_polling. -/
inductive PollOutcome where
  | fail (err : String)
  | done (final : PollFinal)

/-- _run_on_thread_polling: submit the non-streaming run; a failed request
is a failure envelope; an absent or falsy run_id is the terminal
"No run_id returned from the API" failure; otherwise wait for completion. -/
def runOnThreadPolling (pe : PollEnv) (maxWait interval : Nat) : PollOutcome :=
  match pe.create with
  | .fail e => .fail ("Failed to run on thread: " ++ e)
  | .ok runId runData =>
    if runId.getD "" = "" then .fail "No run_id returned from the API"
    else .done (waitForCompletion pe.fetch runData maxWait interval)

/-- Result of _run_on_thread, paired with the number of streaming attempts
made and the number of polling-path invocations performed. -/
inductive RunResult (α : Type) where
  | streamed (f : α) (frames : List α)
  | polled (p : PollOutcome)

/-- _run_on_thread: try the streaming attempt once; on success return its
envelope with no polling; on failure invoke the polling path once, with no
second streaming attempt. -/
def runOnThread {α : Type} (parse : List Char → Option α) (sa : StreamAttempt)
    (pe : PollEnv) (maxWait interval : Nat) : RunResult α × Nat × Nat :=
  match runOnThreadStream parse sa with
  | .ok (f, fs) => (.streamed f fs, 1, 0)
  | .error _ => (.polled (runOnThreadPolling pe maxWait interval), 1, 1)

/-- C4: every run makes exactly one streaming attempt; the polling path is
invoked exactly once when that attempt fails and never when it succeeds;
and the streaming attempt fails exactly on a non-success initial status, an
exception, or a closed stream that decoded to zero frames. -/
theorem stream_then_poll_fallback {α : Type} (parse : List Char → Option α)
    (sa : StreamAttempt) (pe : PollEnv) (maxWait interval : Nat) :
    (runOnThread parse sa pe maxWait interval).2.1 = 1 ∧
    (runOnThread parse sa pe maxWait interval).2.2 =
      (if (runOnThreadStream parse sa).isOk then 0 else 1) ∧
    ((runOnThreadStream parse sa).isOk = false ↔
      (∃ status body, sa = .badStatus status body) ∨ (∃ m, sa = .exn m) ∨
        (∃ chunks, sa = .okStream chunks ∧
          processStreamResponse parse chunks [] = [])) := by
  refine ⟨?_, ?_, ?_⟩
  · cases hs : runOnThreadStream parse sa with
    | ok v => cases v with | mk f fs => simp [runOnThread, hs]
    | error e => simp [runOnThread, hs]
  · cases hs : runOnThreadStream parse sa with
    | ok v => cases v with | mk f fs => simp [runOnThread, hs, Except.isOk, Except.toBool]
    | error e => simp [runOnThread, hs, Except.isOk, Except.toBool]
  · cases sa with
    | badStatus status body =>
      simp [runOnThreadStream, Except.isOk, Except.toBool]
    | exn m =>
      simp [runOnThreadStream, Except.isOk, Except.toBool]
    | okStream chunks =>
      cases hl : (processStreamResponse parse chunks []).getLast? with
      | none =>
        simp only [runOnThreadStream, hl, Except.isOk, Except.toBool]
        simp only [List.getLast?_eq_none_iff] at hl
        simp [hl]
      | some f =>
        simp only [runOnThreadStream, hl, Except.isOk, Except.toBool]
        constructor
        · intro h
          simp at h
        · rintro (⟨st, b, he⟩ | ⟨m, he⟩ | ⟨cks, he, hempty⟩)
          · exact absurd he (by simp)
          · exact absurd he (by simp)
          · cases he
            rw [hempty] at hl
            simp at hl

end DualAgents
